import Mathlib

/-!
Verification of the dependency-graph engine of `scripts/analyze.py`.

The Python source is shallowly embedded below.  Conventions of the embedding:

* A project-relative file path is a nonempty list of path segments
  (`Path.relative_to(root).parts`); the corresponding path string joins the
  segments with `/` (the POSIX separator used throughout).
* A Python `dict` (insertion-ordered since 3.7, assignment to an existing key
  keeps the key's position and replaces the value) is an association list
  `List (String × β)` together with `dictSet`/`dictGet` below.
* A `defaultdict(set)` whose sets are only ever extended and finally converted
  to sorted lists is an association list `List (String × List String)` whose
  value lists are kept duplicate-free by `dsetAdd`; only membership of the
  value sets is observable before the final sort, so this embedding is
  faithful.
* Iteration order over the Python `set` `internal_modules` is unspecified in
  Python (it varies with string hash randomization across runs), so
  `build_dependency_graph` takes the iteration order explicitly as the list
  `internalOrder`; `internalOrderOK` says a list is a legitimate order, i.e. a
  permutation of the distinct module identifiers of the discovered files.
* Python's `sorted` is a stable sort; `List.insertionSort` is stable for the
  orders used here, and produces the unique stably-sorted permutation, hence
  agrees with `sorted`.
* Parsing a file with the external `ast` library is abstracted as a
  `ParseResult` oracle: either the ordered list of import nodes found by
  `ast.walk`, or a parse/decode failure message, mirroring the `try/except`
  of `extract_imports`.
* The recursive `dfs` of `find_circular_dependencies` is embedded with a fuel
  parameter; the top-level entry point supplies fuel exceeding the recursion
  depth ever reached (the Python recursion depth is bounded by the number of
  distinct graph nodes plus one).
-/

namespace Analyze

/-! Python string primitives.  The embeddings below work on the code-point
list `String.data`, mirroring Python's `str` semantics (slicing, splitting and
comparison by code point); they are used instead of the corresponding core
`String` functions so that every definition reduces inside the kernel. -/

/-- Python `s.startswith(p)`. -/
def pyStartsWith (s p : String) : Bool :=
  p.data.isPrefixOf s.data

/-- Python `s.endswith(p)`. -/
def pyEndsWith (s p : String) : Bool :=
  p.data.isSuffixOf s.data

/-- Python `s[:-n]` for `n ≤ len(s)`: drop the last `n` code points. -/
def pyDropRight (s : String) (n : Nat) : String :=
  ⟨s.data.take (s.data.length - n)⟩

/-- Auxiliary scanner for `pySplitOn` (accumulates the current chunk in
reverse). -/
def pySplitOnAux (sep : Char) : List Char → List Char → List String
  | [], acc => [⟨acc.reverse⟩]
  | c :: cs, acc =>
      if c = sep then ⟨acc.reverse⟩ :: pySplitOnAux sep cs []
      else pySplitOnAux sep cs (c :: acc)

/-- Python `s.split(sep)` for a one-character separator: `''` splits to
`['']`, and empty chunks are kept. -/
def pySplitOn (s : String) (sep : Char) : List String :=
  pySplitOnAux sep s.data []

/-- Python `sep.join(l)`. -/
def pyJoin (sep : String) : List String → String
  | [] => ""
  | x :: xs => xs.foldl (fun acc y => acc ++ sep ++ y) x

/-- Python `a < b` on strings: lexicographic comparison by code point. -/
def pyStrLtList : List Char → List Char → Bool
  | [], [] => false
  | [], _ :: _ => true
  | _ :: _, [] => false
  | a :: as, b :: bs =>
      if a.toNat < b.toNat then true
      else if b.toNat < a.toNat then false
      else pyStrLtList as bs

/-- Python `a < b` on strings. -/
def pyLt (a b : String) : Bool :=
  pyStrLtList a.data b.data

/-- Python `a <= b` on strings (for a total order, `a <= b` iff `not (b < a)`). -/
def pyLe (a b : String) : Bool :=
  !(pyLt b a)

/-- The order relation used for Python's `sorted` over strings. -/
def strLE (a b : String) : Prop :=
  pyLe a b = true

instance : DecidableRel strLE := fun a b =>
  inferInstanceAs (Decidable (pyLe a b = true))

/-- Python dict lookup `d.get(k)`: value of the first (hence, keys being
unique, the only) entry with key `k`. -/
def dictGet {β : Type} (d : List (String × β)) (k : String) : Option β :=
  match d with
  | [] => none
  | kv :: rest => if kv.1 = k then some kv.2 else dictGet rest k

/-- Python dict assignment `d[k] = v`: replace the value of an existing key in
place, otherwise append a new entry (insertion order semantics). -/
def dictSet {β : Type} (d : List (String × β)) (k : String) (v : β) : List (String × β) :=
  match d with
  | [] => [(k, v)]
  | kv :: rest => if kv.1 = k then (k, v) :: rest else kv :: dictSet rest k v

/-- `defaultdict(set)` update `d[k].add(v)`; the value set is a
duplicate-free list (only membership is observed before the final sort). -/
def dsetAdd (d : List (String × List String)) (k v : String) : List (String × List String) :=
  match d with
  | [] => [(k, [v])]
  | kv :: rest =>
      if kv.1 = k then (k, if v ∈ kv.2 then kv.2 else kv.2 ++ [v]) :: rest
      else kv :: dsetAdd rest k v

/-- Python `set.add` on the `external_deps` set (again, only membership and
the final sorted listing are observed). -/
def extAdd (l : List String) (x : String) : List String :=
  if x ∈ l then l else l ++ [x]

/-- Python `sorted` on strings (stable; ascending lexicographic order — on
duplicate-free inputs any sort by `strLE` is the result of `sorted`). -/
def sortStrings (l : List String) : List String :=
  List.insertionSort strLE l

/-- Python `min` over a list of strings (the first minimal element; the
Python call is only reached on nonempty lists, `""` is a dummy for the empty
case). -/
def pyMin (l : List String) : String :=
  match l with
  | [] => ""
  | x :: xs => xs.foldl (fun m y => if pyLt y m then y else m) x

/-- `str(f.relative_to(project_root))` for a path with the given segments. -/
def pathStr (parts : List String) : String :=
  pyJoin "/" parts

/-- `file_to_module` (analyze.py lines 477-488): strip a trailing `.py` from
the last segment, drop a final `__init__` segment, join with dots. -/
def file_to_module (parts0 : List String) : String :=
  let last0 := (parts0.getLast?).getD ""
  let parts1 := if pyEndsWith last0 ".py" then parts0.dropLast ++ [pyDropRight last0 3] else parts0
  let parts2 := if (parts1.getLast?).getD "" = "__init__" then parts1.dropLast else parts1
  pyJoin "." parts2

/-- `resolve_relative_import` (analyze.py lines 458-474).  Here `fileParts`
is the importing file's project-relative path segments, and
`parts = fileParts[:-1]` is its package path. -/
def resolve_relative_import (fileParts : List String) (module : String) (level : Nat) :
    Option String :=
  if level = 0 then some module
  else
    let parts := fileParts.dropLast
    if level > parts.length then none
    else
      let base_parts := parts.take (parts.length - level + 1)
      if module ≠ "" then some (pyJoin "." (base_parts ++ pySplitOn module '.'))
      else some (pyJoin "." base_parts)

/-- One `import`-statement alias (`ast.Import`): `{'module': alias.name,
'alias': alias.asname, 'line': node.lineno}`. -/
structure PyImport where
  module : String
  asname : Option String
  line : Nat
deriving DecidableEq, Repr

/-- One `from`-import alias (`ast.ImportFrom`): `{'module': node.module or '',
'name': alias.name, 'alias': alias.asname, 'level': node.level,
'line': node.lineno}`. -/
structure PyFromImport where
  module : String
  name : String
  asname : Option String
  level : Nat
  line : Nat
deriving DecidableEq, Repr

/-- Outcome of `ast.parse` + `ast.walk` on one file: the ordered lists of
the walked import nodes, or a parse/decode failure message (the external
`ast` library itself is not modelled). -/
inductive ParseResult where
  | ok (imports : List PyImport) (from_imports : List PyFromImport)
  | err (msg : String)
deriving DecidableEq, Repr

/-- The per-file record returned by `extract_imports`. -/
structure FileImports where
  file : String
  error : Option String
  imports : List PyImport
  from_imports : List PyFromImport
deriving DecidableEq, Repr

/-- `extract_imports` (analyze.py lines 406-455): a parse failure yields an
explicit error record with the file identity and empty import lists; a
successful parse yields the walked import nodes. -/
def extract_imports (file : String) (p : ParseResult) : FileImports :=
  match p with
  | .ok is fis => { file := file, error := none, imports := is, from_imports := fis }
  | .err e => { file := file, error := some e, imports := [], from_imports := [] }

/-- The three accumulators mutated by the loops of `build_dependency_graph`. -/
structure GraphState where
  imports_graph : List (String × List String)
  imported_by : List (String × List String)
  external_deps : List String
deriving DecidableEq, Repr

/-- The two simultaneous updates `imports_graph[importing_module].add(internal)`
and `imported_by[internal].add(importing_module)`. -/
def addEdge (s : GraphState) (importing internal : String) : GraphState :=
  { s with
    imports_graph := dsetAdd s.imports_graph importing internal,
    imported_by := dsetAdd s.imported_by internal importing }

/-- Body of `for imp in file_data.get('imports', [])` (analyze.py lines
516-527): raw `startswith` prefix test against `internal_modules` in its
iteration order, first match wins, otherwise external under the first
dotted-path segment. -/
def stepImport (internalOrder : List String) (importing : String)
    (s : GraphState) (imp : PyImport) : GraphState :=
  let full_module := imp.module
  let top_level := ((pySplitOn full_module '.').headD "")
  if internalOrder.any (fun internal => pyStartsWith full_module internal) then
    match internalOrder.find? (fun internal => pyStartsWith full_module internal) with
    | some internal => addEdge s importing internal
    | none => s
  else
    { s with external_deps := extAdd s.external_deps top_level }

/-- Body of `for imp in file_data.get('from_imports', [])` (analyze.py lines
529-549).  `if resolved and resolved in internal_modules` tests Python
truthiness of the string, hence also `resolved ≠ ""`. -/
def stepFromImport (internalOrder : List String) (fileParts : List String)
    (importing : String) (s : GraphState) (imp : PyFromImport) : GraphState :=
  let module := imp.module
  let level := imp.level
  if 0 < level then
    match resolve_relative_import fileParts module level with
    | some resolved =>
        if resolved ≠ "" ∧ resolved ∈ internalOrder then addEdge s importing resolved else s
    | none => s
  else
    let top_level := if module ≠ "" then ((pySplitOn module '.').headD "") else ""
    if internalOrder.any (fun internal => pyStartsWith module internal) then
      match internalOrder.find? (fun internal => pyStartsWith module internal) with
      | some internal => addEdge s importing internal
      | none => s
    else
      if top_level ≠ "" then { s with external_deps := extAdd s.external_deps top_level }
      else s

/-- Body of `for file_data in all_imports` (analyze.py lines 509-549),
including the skip of error records at lines 509-510. -/
def stepFile (internalOrder : List String) (f2mMap : List (String × String))
    (s : GraphState) (fd : FileImports) : GraphState :=
  if fd.error.isSome ∧ fd.imports = [] then s
  else
    let importing_module := (dictGet f2mMap fd.file).getD fd.file
    let fileParts := pySplitOn fd.file '/'
    let s1 := fd.imports.foldl (stepImport internalOrder importing_module) s
    fd.from_imports.foldl (stepFromImport internalOrder fileParts importing_module) s1

/-- `{k: sorted(list(v)) for k, v in d.items()}` (analyze.py lines 551-552). -/
def sortValues (d : List (String × List String)) : List (String × List String) :=
  d.map (fun kv => (kv.1, sortStrings kv.2))

/-- The structure returned by `build_dependency_graph`. -/
structure DepGraph where
  modules : List (String × String)
  imports : List (String × List String)
  imported_by : List (String × List String)
  external_dependencies : List String
  file_imports : List FileImports
deriving DecidableEq, Repr

/-- `build_dependency_graph` (analyze.py lines 491-560).  `files` is the
discovered file list (as segment lists), `parse` the parse oracle keyed by
the project-relative path string, and `internalOrder` the iteration order of
the Python set `internal_modules` (see the header comment). -/
def build_dependency_graph (files : List (List String)) (parse : String → ParseResult)
    (internalOrder : List String) : DepGraph :=
  let module_to_file :=
    files.foldl (fun d f => dictSet d (file_to_module f) (pathStr f)) []
  let file_to_module_map :=
    files.foldl (fun d f => dictSet d (pathStr f) (file_to_module f)) []
  let all_imports := files.map (fun f => extract_imports (pathStr f) (parse (pathStr f)))
  let st := all_imports.foldl (stepFile internalOrder file_to_module_map)
    { imports_graph := [], imported_by := [], external_deps := [] }
  { modules := module_to_file,
    imports := sortValues st.imports_graph,
    imported_by := sortValues st.imported_by,
    external_dependencies := sortStrings st.external_deps,
    file_imports := all_imports }

/-- A legitimate iteration order for the set `internal_modules`: a permutation
of the distinct module identifiers of the discovered files (the key set of
`module_to_file`). -/
def internalOrderOK (files : List (List String)) (order : List String) : Prop :=
  order.Perm ((files.map file_to_module).dedup)

/-- Mutable state of the closure variables of `find_circular_dependencies`:
`cycles`, `visited`, `rec_stack`, `rec_set` (the list `rec_stack` is only
ever pushed and popped, never read). -/
structure DfsState where
  cycles : List (List String)
  visited : List String
  recStack : List String
  recSet : List String
deriving DecidableEq, Repr

/-- The inner `dfs` of `find_circular_dependencies` (analyze.py lines
570-591), with explicit fuel for the recursion. -/
def dfs (g : List (String × List String)) : Nat → String → List String → DfsState → DfsState
  | 0, _, _, s => s
  | fuel + 1, node, path, s =>
    if node ∈ s.recSet then
      let cycle_start := path.indexOf node
      let cycle := path.drop cycle_start ++ [node]
      let min_idx := cycle.indexOf (pyMin cycle.dropLast)
      let normalized := (cycle.drop min_idx).dropLast ++ cycle.take min_idx ++ [cycle.getD min_idx ""]
      if normalized ∈ s.cycles then s else { s with cycles := s.cycles ++ [normalized] }
    else if node ∈ s.visited then s
    else
      let s1 : DfsState :=
        { s with
          visited := node :: s.visited,
          recStack := s.recStack ++ [node],
          recSet := node :: s.recSet }
      let s2 := ((dictGet g node).getD []).foldl
        (fun st neighbor => dfs g fuel neighbor (path ++ [node]) st) s1
      { s2 with recSet := s2.recSet.erase node, recStack := s2.recStack.dropLast }

/-- Fuel bound for `dfs`: the Python recursion depth is at most the number of
distinct nodes plus one, which this (number of keys plus number of listed
neighbors plus one) dominates. -/
def dfsFuel (g : List (String × List String)) : Nat :=
  g.foldl (fun n kv => n + 1 + kv.2.length) 1

/-- `find_circular_dependencies` (analyze.py lines 563-597). -/
def find_circular_dependencies (g : List (String × List String)) : List (List String) :=
  let init : DfsState := { cycles := [], visited := [], recStack := [], recSet := [] }
  (g.foldl (fun s kv => if kv.1 ∈ s.visited then s else dfs g (dfsFuel g) kv.1 [] s) init).cycles

/-- `find_orphan_modules` (analyze.py lines 600-608).  The final parameter
`imports_graph` is accepted and unused, as in the source. -/
def find_orphan_modules (modules : List (String × String))
    (imported_by : List (String × List String))
    (_imports_graph : List (String × List String)) : List String :=
  modules.foldl
    (fun orphans kv =>
      let module := kv.1
      if pyEndsWith module "__init__" ∨ pyEndsWith module "__main__" then orphans
      else
        match dictGet imported_by module with
        | none => orphans ++ [module]
        | some l => if l.length = 0 then orphans ++ [module] else orphans)
    []

/-- One entry of the `find_hotspots` result. -/
structure Hotspot where
  module : String
  imported_by_count : Nat
  importers : List String
deriving DecidableEq, Repr

/-- Descending comparison on `imported_by_count`; `sorted(key=..., reverse=True)`
is the stable sort by this relation. -/
def hotspotGE (a b : Hotspot) : Prop :=
  b.imported_by_count ≤ a.imported_by_count

instance : DecidableRel hotspotGE := fun a b =>
  Nat.decLe b.imported_by_count a.imported_by_count

instance : IsTotal Hotspot hotspotGE :=
  ⟨fun a b => Nat.le_total b.imported_by_count a.imported_by_count⟩

instance : IsTrans Hotspot hotspotGE :=
  ⟨fun _ _ _ h1 h2 => Nat.le_trans h2 h1⟩

/-- `find_hotspots` (analyze.py lines 611-621).  Python's `sorted` with
`reverse=True` is stable; `List.insertionSort hotspotGE` places an element
before a later one exactly when its count is at least as large, which is the
same stable descending order.  The Python default threshold is 5. -/
def find_hotspots (imported_by : List (String × List String)) (threshold : Nat) :
    List Hotspot :=
  let hotspots := imported_by.foldl
    (fun acc kv =>
      if kv.2.length ≥ threshold then
        acc ++ [{ module := kv.1, imported_by_count := kv.2.length, importers := kv.2 }]
      else acc)
    []
  List.insertionSort hotspotGE hotspots

/-- Edge consistency of the two adjacency accumulators: `B ∈ imports[A]` iff
`A ∈ imported_by[B]`. -/
def edgeConsistent (s : GraphState) : Prop :=
  ∀ A B, B ∈ (dictGet s.imports_graph A).getD [] ↔ A ∈ (dictGet s.imported_by B).getD []

/-- All edge targets and all reverse-index keys lie in `order` (the internal
module set). -/
def targetsIn (order : List String) (s : GraphState) : Prop :=
  (∀ A B, B ∈ (dictGet s.imports_graph A).getD [] → B ∈ order) ∧
  (∀ B, (dictGet s.imported_by B).isSome = true → B ∈ order)

/-- Shape of a normalized cycle as appended by `dfs`: closed (first element
equals last) and beginning at a node that is lexicographically at most every
node of the cycle. -/
def cycleShape (c : List String) : Prop :=
  ∃ m mid, c = m :: (mid ++ [m]) ∧ ∀ x ∈ m :: mid, pyLe m x = true

/-- Invariant carried by the cycle accumulator of the traversal: no duplicate
cycles, and every recorded cycle has the normalized shape. -/
def goodCycles (s : DfsState) : Prop :=
  s.cycles.Nodup ∧ ∀ c ∈ s.cycles, cycleShape c

/-- The claim C5 resolution rule, stated from the spec's words: from the
package path (the importing file's path without its final segment), a
relative import of level `> d` (the package depth) fails; otherwise the
candidate is the package path truncated by `level - 1` segments, concatenated
with the import's dotted-path segments, joined with dots. -/
def resolveRelativeSpec (packageParts : List String) (module : String) (level : Nat) :
    Option String :=
  if level > packageParts.length then none
  else
    let truncated := packageParts.take (packageParts.length - (level - 1))
    let moduleSegs := if module = "" then [] else pySplitOn module '.'
    some (pyJoin "." (truncated ++ moduleSegs))

end Analyze

namespace Analyze

/-! Helper lemmas about the dictionary model. -/

theorem dictGet_nil {β : Type} (k : String) : dictGet ([] : List (String × β)) k = none := rfl

theorem dictGet_cons {β : Type} (kv : String × β) (d : List (String × β)) (k : String) :
    dictGet (kv :: d) k = if kv.1 = k then some kv.2 else dictGet d k := rfl

/-- Lookup after a dict assignment: the assigned key reads back the new
value, other keys are unaffected. -/
theorem dictGet_dictSet {β : Type} (d : List (String × β)) (k k' : String) (v : β) :
    dictGet (dictSet d k v) k' = if k = k' then some v else dictGet d k' := by
  induction d with
  | nil => simp [dictSet, dictGet]
  | cons kv rest ih =>
      by_cases h1 : kv.1 = k
      · by_cases h2 : k = k'
        · simp [dictSet, dictGet, h1, h2]
        · have h3 : ¬ (kv.1 = k') := by rw [h1]; exact h2
          simp [dictSet, dictGet, h1, h2, h3]
      · by_cases h2 : kv.1 = k'
        · have hk : ¬ (k = k') := by
            intro h
            exact h1 (h2.trans h.symm)
          have hk2 : ¬ (k' = k) := fun h => hk h.symm
          simp [dictSet, dictGet, h1, h2, hk, hk2]
        · simp [dictSet, dictGet, h1, h2, ih]

/-- Lookup after a `defaultdict(set)` update: the updated key reads back its
extended value set, other keys are unaffected. -/
theorem dictGet_dsetAdd (d : List (String × List String)) (k v A : String) :
    dictGet (dsetAdd d k v) A =
      if A = k then
        some (if v ∈ (dictGet d k).getD [] then (dictGet d k).getD []
          else (dictGet d k).getD [] ++ [v])
      else dictGet d A := by
  induction d with
  | nil =>
      by_cases hA : A = k
      · subst hA
        simp [dsetAdd, dictGet]
      · have h2 : ¬ (k = A) := fun h => hA h.symm
        simp [dsetAdd, dictGet, hA, h2]
  | cons kv rest ih =>
      by_cases h1 : kv.1 = k
      · by_cases hA : A = k
        · subst hA
          simp [dsetAdd, dictGet, h1]
        · have h2 : ¬ (k = A) := fun h => hA h.symm
          have h3 : ¬ (kv.1 = A) := fun h => hA ((h1.symm.trans h).symm)
          simp [dsetAdd, dictGet, h1, hA, h2, h3]
      · by_cases h2 : kv.1 = A
        · have h3 : ¬ (A = k) := fun h => h1 (h2.trans h)
          simp [dsetAdd, dictGet, h1, h2, h3]
        · simp [dsetAdd, dictGet, h1, h2, ih]

/-- Membership in a value set after a `defaultdict(set)` update. -/
theorem mem_getD_dsetAdd (d : List (String × List String)) (k v A B : String) :
    (B ∈ (dictGet (dsetAdd d k v) A).getD []) ↔
      (B ∈ (dictGet d A).getD [] ∨ (A = k ∧ B = v)) := by
  rw [dictGet_dsetAdd]
  by_cases hA : A = k
  · subst hA
    by_cases hv : v ∈ (dictGet d A).getD []
    · simp only [hv, if_true, Option.getD_some, true_and]
      constructor
      · exact fun h => Or.inl h
      · rintro (h | h)
        · exact h
        · exact h ▸ hv
    · simp [hv, List.mem_append]
  · simp [hA]

/-- Key presence after a `defaultdict(set)` update. -/
theorem isSome_dictGet_dsetAdd (d : List (String × List String)) (k v A : String) :
    ((dictGet (dsetAdd d k v) A).isSome = true) ↔
      ((dictGet d A).isSome = true ∨ A = k) := by
  rw [dictGet_dsetAdd]
  by_cases hA : A = k
  · simp [hA]
  · simp [hA]

/-- `sortValues` only re-orders value lists: lookup commutes with it. -/
theorem dictGet_sortValues (d : List (String × List String)) (k : String) :
    dictGet (sortValues d) k = (dictGet d k).map sortStrings := by
  induction d with
  | nil => rfl
  | cons kv rest ih =>
      by_cases h : kv.1 = k
      · simp [sortValues, dictGet, h]
      · simpa [sortValues, dictGet, h] using ih

/-- Sorting a string list preserves membership. -/
theorem mem_sortStrings (l : List String) (x : String) : x ∈ sortStrings l ↔ x ∈ l :=
  (List.perm_insertionSort strLE l).mem_iff

/-- Membership in a looked-up value set is unaffected by `sortValues`. -/
theorem mem_getD_sortValues (d : List (String × List String)) (k x : String) :
    x ∈ (dictGet (sortValues d) k).getD [] ↔ x ∈ (dictGet d k).getD [] := by
  rw [dictGet_sortValues]
  cases h : dictGet d k with
  | none => simp
  | some l => simp [mem_sortStrings]

/-- Key presence is unaffected by `sortValues`. -/
theorem isSome_dictGet_sortValues (d : List (String × List String)) (k : String) :
    (dictGet (sortValues d) k).isSome = (dictGet d k).isSome := by
  rw [dictGet_sortValues]
  cases dictGet d k <;> rfl

/-- A `foldl` preserves any invariant its step function preserves. -/
theorem foldl_preserves {σ α : Type} {P : σ → Prop} {f : σ → α → σ}
    (h : ∀ s a, P s → P (f s a)) : ∀ (l : List α) (s : σ), P s → P (l.foldl f s) := by
  intro l
  induction l with
  | nil => intro s hs; exact hs
  | cons a l ih => intro s hs; exact ih (f s a) (h s a hs)

/-! Preservation of `edgeConsistent` through the graph-building loops. -/

theorem edgeConsistent_addEdge (s : GraphState) (p q : String)
    (h : edgeConsistent s) : edgeConsistent (addEdge s p q) := by
  intro A B
  unfold addEdge
  simp only [mem_getD_dsetAdd]
  constructor
  · rintro (hm | ⟨hA, hB⟩)
    · exact Or.inl ((h A B).mp hm)
    · exact Or.inr ⟨hB, hA⟩
  · rintro (hm | ⟨hB, hA⟩)
    · exact Or.inl ((h A B).mpr hm)
    · exact Or.inr ⟨hA, hB⟩

theorem edgeConsistent_stepImport (order : List String) (im : String)
    (s : GraphState) (imp : PyImport) (h : edgeConsistent s) :
    edgeConsistent (stepImport order im s imp) := by
  simp only [stepImport]
  repeat' split
  all_goals first
    | exact edgeConsistent_addEdge _ _ _ h
    | exact h

theorem edgeConsistent_stepFromImport (order : List String) (fp : List String) (im : String)
    (s : GraphState) (imp : PyFromImport) (h : edgeConsistent s) :
    edgeConsistent (stepFromImport order fp im s imp) := by
  simp only [stepFromImport]
  repeat' split
  all_goals first
    | exact edgeConsistent_addEdge _ _ _ h
    | exact h

theorem edgeConsistent_stepFile (order : List String) (f2m : List (String × String))
    (s : GraphState) (fd : FileImports) (h : edgeConsistent s) :
    edgeConsistent (stepFile order f2m s fd) := by
  simp only [stepFile]
  split
  · exact h
  · exact foldl_preserves (fun s imp hs => edgeConsistent_stepFromImport order _ _ s imp hs) _ _
      (foldl_preserves (fun s imp hs => edgeConsistent_stepImport order _ s imp hs) _ _ h)

/-! Preservation of `targetsIn` through the graph-building loops. -/

theorem targetsIn_addEdge (order : List String) (s : GraphState) (p q : String)
    (hq : q ∈ order) (h : targetsIn order s) : targetsIn order (addEdge s p q) := by
  obtain ⟨h1, h2⟩ := h
  constructor
  · intro A B hm
    rw [show (addEdge s p q).imports_graph = dsetAdd s.imports_graph p q from rfl,
      mem_getD_dsetAdd] at hm
    rcases hm with hm | ⟨_, hB⟩
    · exact h1 A B hm
    · exact hB ▸ hq
  · intro B hs
    rw [show (addEdge s p q).imported_by = dsetAdd s.imported_by q p from rfl,
      isSome_dictGet_dsetAdd] at hs
    rcases hs with hs | hB
    · exact h2 B hs
    · exact hB ▸ hq

theorem targetsIn_stepImport (order : List String) (im : String)
    (s : GraphState) (imp : PyImport) (h : targetsIn order s) :
    targetsIn order (stepImport order im s imp) := by
  simp only [stepImport]
  repeat' split
  all_goals try exact h
  all_goals
    rename_i internal heq
    exact targetsIn_addEdge order s im internal (List.mem_of_find?_eq_some heq) h

theorem targetsIn_stepFromImport (order : List String) (fp : List String) (im : String)
    (s : GraphState) (imp : PyFromImport) (h : targetsIn order s) :
    targetsIn order (stepFromImport order fp im s imp) := by
  simp only [stepFromImport]
  repeat' split
  all_goals try exact h
  all_goals first
    | (rename_i hcond
       exact targetsIn_addEdge order s im _ hcond.2 h)
    | (rename_i internal heq
       exact targetsIn_addEdge order s im internal (List.mem_of_find?_eq_some heq) h)

theorem targetsIn_stepFile (order : List String) (f2m : List (String × String))
    (s : GraphState) (fd : FileImports) (h : targetsIn order s) :
    targetsIn order (stepFile order f2m s fd) := by
  simp only [stepFile]
  split
  · exact h
  · exact foldl_preserves (fun s imp hs => targetsIn_stepFromImport order _ _ s imp hs) _ _
      (foldl_preserves (fun s imp hs => targetsIn_stepImport order _ s imp hs) _ _ h)

/-! Lemmas for the modules map (last write wins), parse-failure isolation,
and the hotspot loop. -/

/-- Folding dict assignments keyed by `file_to_module`: a lookup returns the
value written by the last file mapping to that key. -/
theorem dictGet_foldl_modules (m : String) :
    ∀ (fs : List (List String)) (d : List (String × String)),
    dictGet (fs.foldl (fun d f => dictSet d (file_to_module f) (pathStr f)) d) m =
      ((fs.reverse.find? (fun f => file_to_module f = m)).map pathStr).or (dictGet d m) := by
  intro fs
  induction fs with
  | nil => intro d; simp
  | cons f fs ih =>
      intro d
      rw [List.foldl_cons, ih, List.reverse_cons, List.find?_append]
      cases hf : fs.reverse.find? (fun f => file_to_module f = m) with
      | some g => simp [Option.or]
      | none =>
          by_cases hp : file_to_module f = m
          · simp [dictGet_dictSet, List.find?_singleton, hp, Option.or]
          · simp [dictGet_dictSet, List.find?_singleton, hp, Option.or]

/-- `stepFile` skips a parse-error record entirely. -/
theorem stepFile_error_record (order : List String) (f2m : List (String × String))
    (s : GraphState) (p e : String) :
    stepFile order f2m s { file := p, error := some e, imports := [], from_imports := [] } = s := by
  simp [stepFile]

/-- `stepFile` on a record with no imports at all leaves the state unchanged. -/
theorem stepFile_no_imports (order : List String) (f2m : List (String × String))
    (s : GraphState) (p : String) :
    stepFile order f2m s { file := p, error := none, imports := [], from_imports := [] } = s := by
  simp [stepFile]

/-- The hotspot accumulation loop is a filter-and-map. -/
theorem hotspots_loop_eq (t : Nat) :
    ∀ (l : List (String × List String)) (acc : List Hotspot),
    l.foldl (fun acc kv =>
        if kv.2.length ≥ t then
          acc ++ [{ module := kv.1, imported_by_count := kv.2.length, importers := kv.2 }]
        else acc) acc =
      acc ++ (l.filter (fun kv => t ≤ kv.2.length)).map
        (fun kv => { module := kv.1, imported_by_count := kv.2.length, importers := kv.2 }) := by
  intro l
  induction l with
  | nil => intro acc; simp
  | cons kv l ih =>
      intro acc
      by_cases hc : t ≤ kv.2.length
      · simp [List.filter_cons, hc, ih]
      · simp [List.filter_cons, hc, ih]

/-! Lemmas about the Python string order, `pyMin`, and the cycle normalizer. -/

theorem pyStrLtList_irrefl : ∀ l : List Char, pyStrLtList l l = false := by
  intro l
  induction l with
  | nil => rfl
  | cons a as ih =>
      simp only [pyStrLtList]
      rw [if_neg (Nat.lt_irrefl _), if_neg (Nat.lt_irrefl _)]
      exact ih

theorem pyLe_refl (a : String) : pyLe a a = true := by
  unfold pyLe pyLt
  rw [pyStrLtList_irrefl]
  rfl

theorem pyStrLtList_trans : ∀ x y z : List Char, pyStrLtList x y = true →
    pyStrLtList y z = true → pyStrLtList x z = true := by
  intro x
  induction x with
  | nil =>
      intro y z hxy hyz
      cases y with
      | nil => simp [pyStrLtList] at hxy
      | cons b bs =>
          cases z with
          | nil => simp [pyStrLtList] at hyz
          | cons c cs => rfl
  | cons a as ih =>
      intro y z hxy hyz
      cases y with
      | nil => simp [pyStrLtList] at hxy
      | cons b bs =>
          cases z with
          | nil => simp [pyStrLtList] at hyz
          | cons c cs =>
              simp only [pyStrLtList] at hxy hyz ⊢
              by_cases h1 : a.toNat < b.toNat
              · by_cases h2 : b.toNat < c.toNat
                · rw [if_pos (Nat.lt_trans h1 h2)]
                · by_cases h2' : c.toNat < b.toNat
                  · rw [if_neg h2, if_pos h2'] at hyz
                    simp at hyz
                  · rw [if_pos (show a.toNat < c.toNat by omega)]
              · by_cases h1' : b.toNat < a.toNat
                · rw [if_neg h1, if_pos h1'] at hxy
                  simp at hxy
                · rw [if_neg h1, if_neg h1'] at hxy
                  by_cases h2 : b.toNat < c.toNat
                  · rw [if_pos (show a.toNat < c.toNat by omega)]
                  · by_cases h2' : c.toNat < b.toNat
                    · rw [if_neg h2, if_pos h2'] at hyz
                      simp at hyz
                    · rw [if_neg h2, if_neg h2'] at hyz
                      rw [if_neg (show ¬ a.toNat < c.toNat by omega),
                        if_neg (show ¬ c.toNat < a.toNat by omega)]
                      exact ih bs cs hxy hyz

theorem pyStrLtList_lt_of_ge : ∀ y a r : List Char, pyStrLtList y a = false →
    pyStrLtList y r = true → pyStrLtList a r = true := by
  intro y
  induction y with
  | nil =>
      intro a r hya hyr
      cases a with
      | nil => exact hyr
      | cons x xs => simp [pyStrLtList] at hya
  | cons b bs ih =>
      intro a r hya hyr
      cases r with
      | nil => simp [pyStrLtList] at hyr
      | cons c cs =>
          cases a with
          | nil => rfl
          | cons x xs =>
              simp only [pyStrLtList] at hya hyr ⊢
              by_cases h1 : b.toNat < x.toNat
              · rw [if_pos h1] at hya
                simp at hya
              · rw [if_neg h1] at hya
                by_cases h1' : x.toNat < b.toNat
                · by_cases h2 : b.toNat < c.toNat
                  · rw [if_pos (show x.toNat < c.toNat by omega)]
                  · by_cases h2' : c.toNat < b.toNat
                    · rw [if_neg h2, if_pos h2'] at hyr
                      simp at hyr
                    · rw [if_pos (show x.toNat < c.toNat by omega)]
                · rw [if_neg h1'] at hya
                  by_cases h2 : b.toNat < c.toNat
                  · rw [if_pos (show x.toNat < c.toNat by omega)]
                  · by_cases h2' : c.toNat < b.toNat
                    · rw [if_neg h2, if_pos h2'] at hyr
                      simp at hyr
                    · rw [if_neg h2, if_neg h2'] at hyr
                      rw [if_neg (show ¬ x.toNat < c.toNat by omega),
                        if_neg (show ¬ c.toNat < x.toNat by omega)]
                      exact ih xs cs hya hyr

theorem pyLt_trans (a b c : String) (h1 : pyLt a b = true) (h2 : pyLt b c = true) :
    pyLt a c = true :=
  pyStrLtList_trans a.data b.data c.data h1 h2

theorem pyLe_iff (a b : String) : pyLe a b = true ↔ pyLt b a = false := by
  unfold pyLe
  cases pyLt b a <;> simp

theorem pyLe_of_pyLe_of_pyLt (r y a : String) (h1 : pyLe r y = true)
    (h2 : pyLt y a = true) : pyLe r a = true := by
  rw [pyLe_iff] at h1 ⊢
  by_contra h
  have ha : pyLt a r = true := by
    cases hx : pyLt a r
    · exact absurd hx h
    · rfl
  have hyr := pyLt_trans y a r h2 ha
  rw [hyr] at h1
  exact Bool.noConfusion h1

theorem pyLe_of_pyLe_of_not_lt (r a y : String) (h1 : pyLe r a = true)
    (h2 : pyLt y a = false) : pyLe r y = true := by
  rw [pyLe_iff] at h1 ⊢
  by_contra h
  have hy : pyLt y r = true := by
    cases hx : pyLt y r
    · exact absurd hx h
    · rfl
  have har : pyLt a r = true := pyStrLtList_lt_of_ge y.data a.data r.data h2 hy
  rw [har] at h1
  exact Bool.noConfusion h1

theorem pyMin_foldl_mem : ∀ (xs : List String) (a : String),
    xs.foldl (fun m y => if pyLt y m then y else m) a ∈ a :: xs := by
  intro xs
  induction xs with
  | nil => intro a; exact List.mem_cons_self a []
  | cons y xs ih =>
      intro a
      rw [List.foldl_cons]
      by_cases h : pyLt y a = true
      · rw [if_pos h]
        exact List.mem_cons_of_mem a (ih y)
      · rw [if_neg h]
        have hmem := ih a
        rw [List.mem_cons] at hmem ⊢
        rcases hmem with h1 | h1
        · exact Or.inl h1
        · exact Or.inr (List.mem_cons_of_mem y h1)

theorem pyMin_foldl_le : ∀ (xs : List String) (a x : String), x ∈ a :: xs →
    pyLe (xs.foldl (fun m y => if pyLt y m then y else m) a) x = true := by
  intro xs
  induction xs with
  | nil =>
      intro a x hx
      rw [List.mem_cons] at hx
      rcases hx with h | h
      · rw [List.foldl_nil, h]
        exact pyLe_refl a
      · cases h
  | cons y xs ih =>
      intro a x hx
      rw [List.foldl_cons]
      by_cases h : pyLt y a = true
      · rw [if_pos h]
        rw [List.mem_cons, List.mem_cons] at hx
        rcases hx with h1 | h1 | h1
        · rw [h1]
          exact pyLe_of_pyLe_of_pyLt _ y a (ih y y (List.mem_cons_self y xs)) h
        · rw [h1]
          exact ih y y (List.mem_cons_self y xs)
        · exact ih y x (List.mem_cons_of_mem y h1)
      · rw [if_neg h]
        have hfalse : pyLt y a = false := by
          cases hx2 : pyLt y a
          · rfl
          · exact absurd hx2 h
        rw [List.mem_cons, List.mem_cons] at hx
        rcases hx with h1 | h1 | h1
        · rw [h1]
          exact ih a a (List.mem_cons_self a xs)
        · rw [h1]
          exact pyLe_of_pyLe_of_not_lt _ a y (ih a a (List.mem_cons_self a xs)) hfalse
        · exact ih a x (List.mem_cons_of_mem a h1)

theorem pyMin_mem (l : List String) (h : l ≠ []) : pyMin l ∈ l := by
  cases l with
  | nil => exact absurd rfl h
  | cons x xs => exact pyMin_foldl_mem xs x

theorem pyMin_le (l : List String) (x : String) (hx : x ∈ l) :
    pyLe (pyMin l) x = true := by
  cases l with
  | nil => cases hx
  | cons a xs => exact pyMin_foldl_le xs a x hx

/-- The list appended by the cycle branch of `dfs` has the normalized shape:
it is `m :: mid ++ [m]` for `m` the lexicographic minimum of the cycle. -/
theorem cycleShape_normalized (q : List String) (node : String) (hq : q ≠ []) :
    cycleShape
      ((((q ++ [node]).drop ((q ++ [node]).indexOf (pyMin (q ++ [node]).dropLast))).dropLast ++
        (q ++ [node]).take ((q ++ [node]).indexOf (pyMin (q ++ [node]).dropLast))) ++
        [(q ++ [node]).getD ((q ++ [node]).indexOf (pyMin (q ++ [node]).dropLast)) ""]) := by
  have hdl : (q ++ [node]).dropLast = q := List.dropLast_concat
  rw [hdl]
  have hmem : pyMin q ∈ q := pyMin_mem q hq
  have hidx : (q ++ [node]).indexOf (pyMin q) = q.indexOf (pyMin q) :=
    List.indexOf_append_of_mem hmem
  rw [hidx]
  have hlt : q.indexOf (pyMin q) < q.length := List.indexOf_lt_length.mpr hmem
  have hgetq : q[q.indexOf (pyMin q)] = pyMin q := by
    have h2 := List.indexOf_get (a := pyMin q) (l := q) hlt
    rw [List.get_eq_getElem] at h2
    exact h2
  have hdrop : (q ++ [node]).drop (q.indexOf (pyMin q)) =
      q.drop (q.indexOf (pyMin q)) ++ [node] := by
    rw [List.drop_append_eq_append_drop, show q.indexOf (pyMin q) - q.length = 0 by omega,
      List.drop_zero]
  have hdropq : q.drop (q.indexOf (pyMin q)) =
      pyMin q :: q.drop (q.indexOf (pyMin q) + 1) := by
    rw [List.drop_eq_getElem_cons hlt, hgetq]
  have htake : (q ++ [node]).take (q.indexOf (pyMin q)) = q.take (q.indexOf (pyMin q)) := by
    rw [List.take_append_eq_append_take, show q.indexOf (pyMin q) - q.length = 0 by omega,
      List.take_zero, List.append_nil]
  have hgetd : (q ++ [node]).getD (q.indexOf (pyMin q)) "" = pyMin q := by
    rw [List.getD_eq_getElem?_getD, List.getElem?_eq_getElem
      (by rw [List.length_append]; omega), Option.getD_some, List.getElem_append_left hlt,
      hgetq]
  rw [hdrop, List.dropLast_concat, hdropq, htake, hgetd]
  refine ⟨pyMin q, q.drop (q.indexOf (pyMin q) + 1) ++ q.take (q.indexOf (pyMin q)), ?_, ?_⟩
  · simp [List.cons_append, List.append_assoc]
  · intro x hx
    rw [List.mem_cons] at hx
    rcases hx with h | h
    · rw [h]
      exact pyLe_refl (pyMin q)
    · rcases List.mem_append.mp h with h2 | h2
      · exact pyMin_le q x (List.mem_of_mem_drop h2)
      · exact pyMin_le q x (List.mem_of_mem_take h2)

/-- `dfs` restores the recursion set it was called with. -/
theorem dfs_recSet (g : List (String × List String)) :
    ∀ (fuel : Nat) (node : String) (path : List String) (s : DfsState),
    (dfs g fuel node path s).recSet = s.recSet := by
  intro fuel
  induction fuel with
  | zero => intro node path s; rfl
  | succ fuel ih =>
      intro node path s
      simp only [dfs]
      split
      · split
        · rfl
        · rfl
      · split
        · rfl
        · have hfold : ∀ (l : List String) (st : DfsState),
              (l.foldl (fun st nb => dfs g fuel nb (path ++ [node]) st) st).recSet = st.recSet := by
            intro l
            induction l with
            | nil => intro st; rfl
            | cons nb l ihl =>
                intro st
                rw [List.foldl_cons, ihl, ih]
          show ((((dictGet g node).getD []).foldl
              (fun st neighbor => dfs g fuel neighbor (path ++ [node]) st)
              { s with
                visited := node :: s.visited,
                recStack := s.recStack ++ [node],
                recSet := node :: s.recSet }).recSet).erase node = s.recSet
          rw [hfold]
          exact List.erase_cons_head node s.recSet

/-- `dfs` preserves the cycle-accumulator invariant, provided the recursion
set is contained in the current path. -/
theorem dfs_goodCycles (g : List (String × List String)) :
    ∀ (fuel : Nat) (node : String) (path : List String) (s : DfsState),
    goodCycles s → (∀ x ∈ s.recSet, x ∈ path) → goodCycles (dfs g fuel node path s) := by
  intro fuel
  induction fuel with
  | zero => intro node path s hg _; exact hg
  | succ fuel ih =>
      intro node path s hg hsub
      simp only [dfs]
      split
      · rename_i hrec
        split
        · exact hg
        · rename_i hnotin
          refine ⟨?_, ?_⟩
          · rw [List.nodup_append]
            refine ⟨hg.1, List.nodup_singleton _, ?_⟩
            intro c hc hc2
            rw [List.mem_singleton] at hc2
            exact hnotin (hc2 ▸ hc)
          · intro c hc
            rcases List.mem_append.mp hc with hc | hc
            · exact hg.2 c hc
            · rw [List.mem_singleton] at hc
              subst hc
              have hnode : node ∈ path := hsub node hrec
              have hne : path.drop (path.indexOf node) ≠ [] := by
                have hlt := List.indexOf_lt_length.mpr hnode
                intro hemp
                have hlen := congrArg List.length hemp
                rw [List.length_drop] at hlen
                simp only [List.length_nil] at hlen
                omega
              exact cycleShape_normalized (path.drop (path.indexOf node)) node hne
      · split
        · exact hg
        · have hfold : ∀ (l : List String) (st : DfsState), goodCycles st →
              (∀ x ∈ st.recSet, x ∈ path ++ [node]) →
              goodCycles (l.foldl (fun st nb => dfs g fuel nb (path ++ [node]) st) st) := by
            intro l
            induction l with
            | nil => intro st h _; exact h
            | cons nb l ihl =>
                intro st h hsub2
                rw [List.foldl_cons]
                refine ihl _ (ih nb (path ++ [node]) st h hsub2) ?_
                rw [dfs_recSet]
                exact hsub2
          exact hfold _ _ hg (by
            intro x hx
            have hx2 : x ∈ node :: s.recSet := hx
            rw [List.mem_cons] at hx2
            rw [List.mem_append, List.mem_singleton]
            rcases hx2 with h | h
            · exact Or.inr h
            · exact Or.inl (hsub x h))

/-- C1 (code bug): with internal modules `foo` and `main` (files `foo.py`,
`main.py`) and `main.py` containing `import foobar`, the builder matches
the import `foobar` against the internal identifier `foo` by raw string prefix
(`'foobar'.startswith('foo')`), records the edge `main → foo`, and leaves the
external dependency set empty — whereas segment-wise prefix matching would
classify `foobar` as external under `foobar` and add no edge. -/
theorem c1_substring_match_bug :
    internalOrderOK [["foo.py"], ["main.py"]] ["foo", "main"] ∧
    (build_dependency_graph [["foo.py"], ["main.py"]]
      (fun s => if s = "main.py" then .ok [⟨"foobar", none, 1⟩] [] else .ok [] [])
      ["foo", "main"]).imports = [("main", ["foo"])] ∧
    (build_dependency_graph [["foo.py"], ["main.py"]]
      (fun s => if s = "main.py" then .ok [⟨"foobar", none, 1⟩] [] else .ok [] [])
      ["foo", "main"]).external_dependencies = [] := by
  refine ⟨?_, by decide, by decide⟩
  unfold internalOrderOK
  decide

/-- C3 (code bug): with internal modules `p`, `p.q`, `u` (files `p.py`,
`p/q.py`, `u.py`) and `u.py` containing `import p.q.r`, the import's dotted
path raw-prefix-matches both `p` and `p.q`; the builder takes the first match
in the iteration order of the Python set `internal_modules`, so two runs whose
set iteration orders differ (both legitimate orders of the same set) produce
different graphs: the edge `u → p` in one and `u → p.q` in the other. -/
theorem c3_order_dependent_tiebreak :
    internalOrderOK [["p.py"], ["p", "q.py"], ["u.py"]] ["p", "p.q", "u"] ∧
    internalOrderOK [["p.py"], ["p", "q.py"], ["u.py"]] ["p.q", "p", "u"] ∧
    (build_dependency_graph [["p.py"], ["p", "q.py"], ["u.py"]]
      (fun s => if s = "u.py" then .ok [⟨"p.q.r", none, 1⟩] [] else .ok [] [])
      ["p", "p.q", "u"]).imports = [("u", ["p"])] ∧
    (build_dependency_graph [["p.py"], ["p", "q.py"], ["u.py"]]
      (fun s => if s = "u.py" then .ok [⟨"p.q.r", none, 1⟩] [] else .ok [] [])
      ["p.q", "p", "u"]).imports = [("u", ["p.q"])] := by
  refine ⟨?_, ?_, by decide, by decide⟩ <;> (unfold internalOrderOK; decide)

/-- C4 (code bug): building from files `pkg/__init__.py` and `lone.py` with
no imports anywhere, the package initializer's module identifier is `pkg` (the
`__init__` segment is stripped by `file_to_module`), so the exemption test
`module.endswith('__init__')` in `find_orphan_modules` never fires for a real
package initializer, and `pkg` is reported as an orphan alongside `lone`. -/
theorem c4_init_exemption_dead :
    file_to_module ["pkg", "__init__.py"] = "pkg" ∧
    ¬ ("pkg".endsWith "__init__") ∧
    find_orphan_modules
      (build_dependency_graph [["pkg", "__init__.py"], ["lone.py"]]
        (fun _ => .ok [] []) ["pkg", "lone"]).modules
      (build_dependency_graph [["pkg", "__init__.py"], ["lone.py"]]
        (fun _ => .ok [] []) ["pkg", "lone"]).imported_by
      (build_dependency_graph [["pkg", "__init__.py"], ["lone.py"]]
        (fun _ => .ok [] []) ["pkg", "lone"]).imports = ["pkg", "lone"] := by
  refine ⟨by decide, by decide, by decide⟩

/-- C2 counterexample: in the graph with edges `a → b`, `a → c`, `b → c`,
`c → a` there are exactly two elementary cycles, `a,b,c,a` and `a,c,a`, and
they share nodes; the detector returns only the first and misses `a,c,a`
(once `c` is marked visited inside the traversal of the first cycle, the
restart through the edge `a → c` is cut off by the global visited set). -/
theorem c2_counterexample :
    find_circular_dependencies [("a", ["b", "c"]), ("b", ["c"]), ("c", ["a"])] =
      [["a", "b", "c", "a"]] ∧
    "c" ∈ (dictGet [("a", ["b", "c"]), ("b", ["c"]), ("c", ["a"])] "a").getD [] ∧
    "a" ∈ (dictGet [("a", ["b", "c"]), ("b", ["c"]), ("c", ["a"])] "c").getD [] ∧
    ["a", "c", "a"] ∉
      find_circular_dependencies [("a", ["b", "c"]), ("b", ["c"]), ("c", ["a"])] := by
  refine ⟨by decide, by decide, by decide, by decide⟩

/-- C7 counterexample: the distinct files `pkg.py` and `pkg/__init__.py` both
map to the module identifier `pkg`, and the builder silently merges them into
the single graph node `pkg` whose `modules` entry keeps the last-processed
file — no "unknown file" state is produced. -/
theorem c7_counterexample :
    file_to_module ["pkg.py"] = file_to_module ["pkg", "__init__.py"] ∧
    pathStr ["pkg.py"] ≠ pathStr ["pkg", "__init__.py"] ∧
    (build_dependency_graph [["pkg.py"], ["pkg", "__init__.py"]]
      (fun _ => .ok [] []) ["pkg"]).modules = [("pkg", "pkg/__init__.py")] := by
  refine ⟨by decide, by decide, by decide⟩

/-- C9 counterexample: a reverse index whose entries `z` and `y` (in that
insertion order) each have five importers.  Both meet the threshold 5 with
equal counts, and `find_hotspots` reports `z` before `y` (Python's stable
sort keeps insertion order among ties), although `y` precedes `z` in
identifier order. -/
theorem c9_counterexample :
    pyLt "y" "z" = true ∧
    (find_hotspots [("z", ["a", "b", "c", "d", "e"]), ("y", ["a", "b", "c", "d", "e"])]
      5).map Hotspot.module = ["z", "y"] := by
  refine ⟨by decide, by decide⟩

/-- C6: for every file set, parse outcome and internal-module iteration
order, the built forward graph and reverse index are mutually consistent:
`B ∈ imports[A]` iff `A ∈ imported_by[B]` (every edge is recorded in both
adjacency structures simultaneously). -/
theorem c6_edge_consistency (files : List (List String)) (parse : String → ParseResult)
    (order : List String) (A B : String) :
    B ∈ (dictGet (build_dependency_graph files parse order).imports A).getD [] ↔
      A ∈ (dictGet (build_dependency_graph files parse order).imported_by B).getD [] := by
  have hinit : edgeConsistent
      ({ imports_graph := [], imported_by := [], external_deps := [] } : GraphState) := by
    intro A B
    simp [dictGet]
  have hinv : edgeConsistent
      ((files.map (fun f => extract_imports (pathStr f) (parse (pathStr f)))).foldl
        (stepFile order (files.foldl (fun d f => dictSet d (pathStr f) (file_to_module f)) []))
        { imports_graph := [], imported_by := [], external_deps := [] }) :=
    foldl_preserves (fun s fd hs => edgeConsistent_stepFile order _ s fd hs) _ _ hinit
  have h1 : (build_dependency_graph files parse order).imports =
      sortValues ((files.map (fun f => extract_imports (pathStr f) (parse (pathStr f)))).foldl
        (stepFile order (files.foldl (fun d f => dictSet d (pathStr f) (file_to_module f)) []))
        { imports_graph := [], imported_by := [], external_deps := [] }).imports_graph := rfl
  have h2 : (build_dependency_graph files parse order).imported_by =
      sortValues ((files.map (fun f => extract_imports (pathStr f) (parse (pathStr f)))).foldl
        (stepFile order (files.foldl (fun d f => dictSet d (pathStr f) (file_to_module f)) []))
        { imports_graph := [], imported_by := [], external_deps := [] }).imported_by := rfl
  rw [h1, h2, mem_getD_sortValues, mem_getD_sortValues]
  exact hinv A B

/-- C10: for every file set, parse outcome and internal-module iteration
order drawn from the discovered files, every edge target of the forward
graph and every key of the reverse index is an internal module identifier
(one derived from a discovered file): external imports touch only the
external-dependency set, and unresolved relative imports add nothing. -/
theorem c10_graph_nodes_internal (files : List (List String)) (parse : String → ParseResult)
    (order : List String) (h : ∀ m ∈ order, m ∈ files.map file_to_module) (A B : String) :
    (B ∈ (dictGet (build_dependency_graph files parse order).imports A).getD [] →
      B ∈ files.map file_to_module) ∧
    ((dictGet (build_dependency_graph files parse order).imported_by B).isSome = true →
      B ∈ files.map file_to_module) := by
  have hinit : targetsIn order
      ({ imports_graph := [], imported_by := [], external_deps := [] } : GraphState) := by
    constructor
    · intro A B hm
      simp [dictGet] at hm
    · intro B hs
      simp [dictGet] at hs
  have hinv : targetsIn order
      ((files.map (fun f => extract_imports (pathStr f) (parse (pathStr f)))).foldl
        (stepFile order (files.foldl (fun d f => dictSet d (pathStr f) (file_to_module f)) []))
        { imports_graph := [], imported_by := [], external_deps := [] }) :=
    foldl_preserves (fun s fd hs => targetsIn_stepFile order _ s fd hs) _ _ hinit
  have h1 : (build_dependency_graph files parse order).imports =
      sortValues ((files.map (fun f => extract_imports (pathStr f) (parse (pathStr f)))).foldl
        (stepFile order (files.foldl (fun d f => dictSet d (pathStr f) (file_to_module f)) []))
        { imports_graph := [], imported_by := [], external_deps := [] }).imports_graph := rfl
  have h2 : (build_dependency_graph files parse order).imported_by =
      sortValues ((files.map (fun f => extract_imports (pathStr f) (parse (pathStr f)))).foldl
        (stepFile order (files.foldl (fun d f => dictSet d (pathStr f) (file_to_module f)) []))
        { imports_graph := [], imported_by := [], external_deps := [] }).imported_by := rfl
  constructor
  · intro hm
    rw [h1, mem_getD_sortValues] at hm
    exact h B (hinv.1 A B hm)
  · intro hs
    rw [h2, isSome_dictGet_sortValues] at hs
    exact h B (hinv.2 B hs)

/-- C10 witness: files `a.py` and `b.py` with `b.py` containing `import a`,
iteration order `["a", "b"]`. -/
theorem c10_graph_nodes_internal_witness :
    (∀ m ∈ (["a", "b"] : List String), m ∈ [["a.py"], ["b.py"]].map file_to_module) ∧
    ((("a" : String) ∈ (dictGet (build_dependency_graph [["a.py"], ["b.py"]]
        (fun s => if s = "b.py" then .ok [⟨"a", none, 1⟩] [] else .ok [] [])
        ["a", "b"]).imports "b").getD [] → ("a" : String) ∈ [["a.py"], ["b.py"]].map file_to_module) ∧
      ((dictGet (build_dependency_graph [["a.py"], ["b.py"]]
        (fun s => if s = "b.py" then .ok [⟨"a", none, 1⟩] [] else .ok [] [])
        ["a", "b"]).imported_by "a").isSome = true → ("a" : String) ∈ [["a.py"], ["b.py"]].map file_to_module)) :=
  ⟨by decide, c10_graph_nodes_internal [["a.py"], ["b.py"]]
    (fun s => if s = "b.py" then .ok [⟨"a", none, 1⟩] [] else .ok [] [])
    ["a", "b"] (by decide) "b" "a"⟩

/-- C7 (amended): the file-to-module mapping is not injective — the distinct
files `pkg.py` and `pkg/__init__.py` collide on the identifier `pkg` — and a
collision is silently merged rather than surfaced: in general the `modules`
map of the built graph binds each identifier to the path of the *last*
discovered file yielding it, with no "unknown file" state of any kind. -/
theorem c7_collision_last_write_wins :
    file_to_module ["pkg.py"] = file_to_module ["pkg", "__init__.py"] ∧
    (∀ (files : List (List String)) (parse : String → ParseResult) (order : List String)
      (m : String),
      dictGet (build_dependency_graph files parse order).modules m =
        (files.reverse.find? (fun f => file_to_module f = m)).map pathStr) := by
  constructor
  · decide
  · intro files parse order m
    have hm : (build_dependency_graph files parse order).modules =
        files.foldl (fun d f => dictSet d (file_to_module f) (pathStr f)) [] := rfl
    rw [hm, dictGet_foldl_modules m files [], dictGet_nil, Option.or_none]

/-- C8: a file whose parse fails yields the explicit error record (file
identity, empty import lists), and the rest of the pipeline is unaffected:
the graph, reverse index and external-dependency set built from the file set
equal those built when the failing file is replaced by a cleanly-parsed file
with no imports at all — the failing file contributes no edges, every other
file's imports are still graphed, and the run does not abort. -/
theorem c8_parse_failure_isolated (files : List (List String)) (parse : String → ParseResult)
    (order : List String) (fp : List String) (e : String)
    (hp : parse (pathStr fp) = .err e) :
    extract_imports (pathStr fp) (parse (pathStr fp)) =
      { file := pathStr fp, error := some e, imports := [], from_imports := [] } ∧
    (build_dependency_graph files parse order).imports =
      (build_dependency_graph files
        (fun q => if q = pathStr fp then .ok [] [] else parse q) order).imports ∧
    (build_dependency_graph files parse order).imported_by =
      (build_dependency_graph files
        (fun q => if q = pathStr fp then .ok [] [] else parse q) order).imported_by ∧
    (build_dependency_graph files parse order).external_dependencies =
      (build_dependency_graph files
        (fun q => if q = pathStr fp then .ok [] [] else parse q) order).external_dependencies := by
  have hrec : extract_imports (pathStr fp) (parse (pathStr fp)) =
      { file := pathStr fp, error := some e, imports := [], from_imports := [] } := by
    rw [hp]
    rfl
  have key : ∀ (fs : List (List String)) (st : GraphState),
      (fs.map (fun f => extract_imports (pathStr f) (parse (pathStr f)))).foldl
        (stepFile order (files.foldl (fun d f => dictSet d (pathStr f) (file_to_module f)) [])) st =
      (fs.map (fun f => extract_imports (pathStr f)
          ((fun q => if q = pathStr fp then ParseResult.ok [] [] else parse q) (pathStr f)))).foldl
        (stepFile order (files.foldl (fun d f => dictSet d (pathStr f) (file_to_module f)) [])) st := by
    intro fs
    induction fs with
    | nil => intro st; rfl
    | cons f fs ih =>
        intro st
        simp only [List.map_cons, List.foldl_cons]
        by_cases hf : pathStr f = pathStr fp
        · rw [show extract_imports (pathStr f) (parse (pathStr f)) =
              { file := pathStr f, error := some e, imports := [], from_imports := [] } by
                rw [hf, hp]
                rfl,
            show extract_imports (pathStr f)
                (if pathStr f = pathStr fp then ParseResult.ok [] [] else parse (pathStr f)) =
              { file := pathStr f, error := none, imports := [], from_imports := [] } by
                rw [if_pos hf]
                rfl,
            stepFile_error_record, stepFile_no_imports]
          exact ih st
        · rw [if_neg hf]
          exact ih _
  have hst := key files { imports_graph := [], imported_by := [], external_deps := [] }
  exact ⟨hrec, congrArg (fun st : GraphState => sortValues st.imports_graph) hst,
    congrArg (fun st : GraphState => sortValues st.imported_by) hst,
    congrArg (fun st : GraphState => sortStrings st.external_deps) hst⟩

/-- C8 witness: two files, `bad.py` failing to parse and `good.py` importing
the external module `os`. -/
theorem c8_parse_failure_isolated_witness :
    extract_imports (pathStr ["bad.py"])
      ((fun q => if q = "bad.py" then ParseResult.err "Syntax error: x"
        else ParseResult.ok [⟨"os", none, 1⟩] []) (pathStr ["bad.py"])) =
      { file := pathStr ["bad.py"], error := some "Syntax error: x", imports := [],
        from_imports := [] } ∧
    (build_dependency_graph [["bad.py"], ["good.py"]]
      (fun q => if q = "bad.py" then ParseResult.err "Syntax error: x"
        else ParseResult.ok [⟨"os", none, 1⟩] []) ["bad", "good"]).imports =
      (build_dependency_graph [["bad.py"], ["good.py"]]
        (fun q => if q = pathStr ["bad.py"] then ParseResult.ok [] []
          else (fun q => if q = "bad.py" then ParseResult.err "Syntax error: x"
            else ParseResult.ok [⟨"os", none, 1⟩] []) q) ["bad", "good"]).imports ∧
    (build_dependency_graph [["bad.py"], ["good.py"]]
      (fun q => if q = "bad.py" then ParseResult.err "Syntax error: x"
        else ParseResult.ok [⟨"os", none, 1⟩] []) ["bad", "good"]).imported_by =
      (build_dependency_graph [["bad.py"], ["good.py"]]
        (fun q => if q = pathStr ["bad.py"] then ParseResult.ok [] []
          else (fun q => if q = "bad.py" then ParseResult.err "Syntax error: x"
            else ParseResult.ok [⟨"os", none, 1⟩] []) q) ["bad", "good"]).imported_by ∧
    (build_dependency_graph [["bad.py"], ["good.py"]]
      (fun q => if q = "bad.py" then ParseResult.err "Syntax error: x"
        else ParseResult.ok [⟨"os", none, 1⟩] []) ["bad", "good"]).external_dependencies =
      (build_dependency_graph [["bad.py"], ["good.py"]]
        (fun q => if q = pathStr ["bad.py"] then ParseResult.ok [] []
          else (fun q => if q = "bad.py" then ParseResult.err "Syntax error: x"
            else ParseResult.ok [⟨"os", none, 1⟩] []) q) ["bad", "good"]).external_dependencies :=
  c8_parse_failure_isolated [["bad.py"], ["good.py"]]
    (fun q => if q = "bad.py" then ParseResult.err "Syntax error: x"
      else ParseResult.ok [⟨"os", none, 1⟩] []) ["bad", "good"] ["bad.py"] "Syntax error: x"
    (by decide)

/-- C9 (amended): `find_hotspots` reports exactly the reverse-index entries
whose importer set has cardinality at least the threshold (with threshold 5,
a module with exactly 5 importers is included and one with 4 is not), sorted
by descending importer count; ties between equal counts follow the reverse
index's entry order (Python's sort is stable), not identifier order. -/
theorem c9_hotspots_threshold_sorted (ib : List (String × List String)) (t : Nat) :
    List.Sorted hotspotGE (find_hotspots ib t) ∧
    ∀ hs : Hotspot, hs ∈ find_hotspots ib t ↔
      ((hs.module, hs.importers) ∈ ib ∧ hs.imported_by_count = hs.importers.length ∧
        t ≤ hs.imported_by_count) := by
  constructor
  · exact List.sorted_insertionSort hotspotGE _
  · intro hs
    have hperm : find_hotspots ib t |>.Perm (ib.foldl
        (fun acc kv =>
          if kv.2.length ≥ t then
            acc ++ [{ module := kv.1, imported_by_count := kv.2.length, importers := kv.2 }]
          else acc) []) := List.perm_insertionSort hotspotGE _
    rw [hperm.mem_iff, hotspots_loop_eq t ib []]
    obtain ⟨m, c, imps⟩ := hs
    simp only [List.nil_append, List.mem_map, List.mem_filter, decide_eq_true_eq]
    constructor
    · rintro ⟨kv, ⟨hkv, hlen⟩, heq⟩
      cases heq
      exact ⟨(Prod.mk.eta (p := kv)) ▸ hkv, rfl, hlen⟩
    · rintro ⟨hmem, hcount, ht⟩
      subst hcount
      exact ⟨(m, imps), ⟨hmem, ht⟩, rfl⟩

/-- C9 amended-claim witness: one reverse-index entry with five importers at
threshold 5. -/
theorem c9_hotspots_threshold_sorted_witness :
    List.Sorted hotspotGE (find_hotspots [("m", ["a", "b", "c", "d", "e"])] 5) ∧
    (({ module := "m", imported_by_count := 5, importers := ["a", "b", "c", "d", "e"] } : Hotspot)
        ∈ find_hotspots [("m", ["a", "b", "c", "d", "e"])] 5 ↔
      (("m", ["a", "b", "c", "d", "e"]) ∈ [("m", ["a", "b", "c", "d", "e"])] ∧
        5 = ["a", "b", "c", "d", "e"].length ∧ 5 ≤ 5)) :=
  ⟨(c9_hotspots_threshold_sorted [("m", ["a", "b", "c", "d", "e"])] 5).1,
    (c9_hotspots_threshold_sorted [("m", ["a", "b", "c", "d", "e"])] 5).2
      { module := "m", imported_by_count := 5, importers := ["a", "b", "c", "d", "e"] }⟩

/-- C2 (amended): for every dependency graph, the reported cycle list has no
duplicates, and every reported cycle is closed — of the form `m :: mid ++ [m]`
— beginning and ending at a node `m` that is lexicographically at most every
node of the cycle; completeness, however, does not hold (see the C2
counterexample: an elementary cycle sharing nodes with an already-explored
one is missed). -/
theorem c2_reported_cycles_normalized (g : List (String × List String)) :
    (find_circular_dependencies g).Nodup ∧
    ∀ c ∈ find_circular_dependencies g, cycleShape c := by
  have hmain : ∀ (l : List (String × List String)) (st : DfsState), goodCycles st →
      st.recSet = [] →
      goodCycles (l.foldl (fun s kv =>
        if kv.1 ∈ s.visited then s else dfs g (dfsFuel g) kv.1 [] s) st) := by
    intro l
    induction l with
    | nil => intro st h _; exact h
    | cons kv l ihl =>
        intro st h hr
        rw [List.foldl_cons]
        by_cases hv : kv.1 ∈ st.visited
        · rw [if_pos hv]
          exact ihl st h hr
        · rw [if_neg hv]
          refine ihl _ (dfs_goodCycles g (dfsFuel g) kv.1 [] st h ?_) ?_
          · intro x hx
            rw [hr] at hx
            cases hx
          · rw [dfs_recSet, hr]
  have h := hmain g { cycles := [], visited := [], recStack := [], recSet := [] }
    ⟨List.nodup_nil, fun c hc => absurd hc (List.not_mem_nil c)⟩ rfl
  exact ⟨h.1, h.2⟩

/-- C2 amended-claim witness: the counterexample graph; the one reported
cycle `a,b,c,a` has the normalized closed shape. -/
theorem c2_reported_cycles_normalized_witness :
    (find_circular_dependencies [("a", ["b", "c"]), ("b", ["c"]), ("c", ["a"])]).Nodup ∧
    cycleShape ["a", "b", "c", "a"] :=
  ⟨(c2_reported_cycles_normalized [("a", ["b", "c"]), ("b", ["c"]), ("c", ["a"])]).1,
    (c2_reported_cycles_normalized [("a", ["b", "c"]), ("b", ["c"]), ("c", ["a"])]).2
      ["a", "b", "c", "a"] (by decide)⟩

/-- C5: for every relative import (`relative_level > 0`) from a file whose
package path has the given segments, `resolve_relative_import` implements
exactly the spec's rule: it fails precisely when the level exceeds the package
depth, and otherwise yields the package path truncated by `level - 1`
segments concatenated with the import's dotted path (the empty dotted path
yielding the package identifier itself). -/
theorem c5_relative_resolution (fileParts : List String) (module : String) (level : Nat)
    (h : 0 < level) :
    resolve_relative_import fileParts module level =
      resolveRelativeSpec fileParts.dropLast module level := by
  unfold resolve_relative_import resolveRelativeSpec
  have hne : level ≠ 0 := by omega
  by_cases hgt : fileParts.length - 1 < level
  · simp [hne, hgt]
  · have htake : fileParts.length - 1 - level + 1 = fileParts.length - 1 - (level - 1) := by
      omega
    by_cases hm : module = "" <;> simp [hne, hgt, hm, htake]

/-- C5 witness: a file at `pkg/sub/mod.py` with a level-2 import of the empty
module resolves to `pkg` (not `pkg.sub`), and agrees with the spec rule. -/
theorem c5_relative_resolution_witness :
    resolve_relative_import ["pkg", "sub", "mod.py"] "" 2 =
      resolveRelativeSpec ["pkg", "sub"] "" 2 ∧
    resolve_relative_import ["pkg", "sub", "mod.py"] "" 2 = some "pkg" ∧
    resolve_relative_import ["pkg", "sub", "mod.py"] "sibling" 2 = some "pkg.sibling" ∧
    resolve_relative_import ["pkg", "sub", "mod.py"] "x" 4 = none :=
  ⟨c5_relative_resolution ["pkg", "sub", "mod.py"] "" 2 (by decide), by decide, by decide,
    by decide⟩

end Analyze
